import Mathlib

/-!
Verification of the VCF-Cleaner contact-file cleaner.

The source program (`VCF-Cleaner.py`) is a record-oriented text pipeline:
it splits raw lines into `BEGIN:VCARD` / `END:VCARD` records
(`_parse_vcf_contacts`), filters each record's property lines and rejects
records without a phone number (`_clean_contact`, `_should_remove_field`),
and removes duplicate records by name or phone-suffix identity
(`_extract_contact_info`, `_is_duplicate`, `_remove_duplicates`), keeping
statistics counters along the way (`nettoyer_vcf`).

This file embeds those functions shallowly: a text line is a `List Char`,
Python string operations (`strip`, `upper`, `lower`, `startswith`, `in`,
slicing) become explicit list functions, the per-line loops become explicit
step functions folded over line lists, and the mutable statistics dictionary
becomes an explicit `Stats` value threaded through each function.
-/

/-- A text line, as a list of characters (Python `str`). -/
abbrev Line := List Char

/-- A contact record: an ordered list of lines. -/
abbrev Record := List Line

/-- Character list of a string literal. -/
def str (s : String) : Line := s.data

/-- Python `s.startswith(p)` on character lists. -/
def strStartsWith (l p : Line) : Bool := p.isPrefixOf l

/-- Python `s.upper()` (ASCII case mapping, which covers every
configured prefix and marker used by the program). -/
def pyUpper (l : Line) : Line := l.map Char.toUpper

/-- Python `s.lower()` (ASCII case mapping). -/
def pyLower (l : Line) : Line := l.map Char.toLower

/-- Drop trailing whitespace characters. -/
def dropTrailingWs (l : Line) : Line :=
  (l.reverse.dropWhile Char.isWhitespace).reverse

/-- Python `s.strip()`: drop leading and trailing whitespace. -/
def pyStrip (l : Line) : Line :=
  dropTrailingWs (l.dropWhile Char.isWhitespace)

/-- Python `s[-n:]` for `n ≤ len s`: the final `n` characters. -/
def lastN (n : Nat) (l : Line) : Line := l.drop (l.length - n)

/-! ## The cleaner's configuration and statistics (`VCFCleaner.__init__`) -/

/-- `self.fields_to_remove`: the configured removable property prefixes,
verbatim from the source, including the mixed-case `X-ABLabel` entry. -/
def fieldsToRemove : List Line :=
  [str "PHOTO", str "NOTE", str "ADR", str "ORG", str "TITLE", str "BDAY",
   str "IMPP", str "LABEL", str "URL", str "X-ABLabel", str "PRODID",
   str "VERSION", str "X-ANDROID-CUSTOM", str "X-PHONETIC", str "NICKNAME",
   str "ROLE", str "CATEGORIES", str "CALURI", str "FBURL", str "KEY",
   str "LOGO", str "SOUND", str "UID", str "TZ", str "GEO", str "CLASS",
   str "SORT-STRING"]

/-- `self.stats`: the five statistics counters. -/
structure Stats where
  total_contacts : Nat
  contacts_with_phone : Nat
  contacts_removed : Nat
  duplicates_removed : Nat
  blocks_removed : Nat
deriving DecidableEq

/-- The freshly initialised statistics (all counters zero). -/
def zeroStats : Stats := ⟨0, 0, 0, 0, 0⟩

/-! ## `_should_remove_field` -/

/-- `_should_remove_field`: uppercase the line, then test whether it starts
with any configured prefix followed immediately by `:` or `;`.  The
configured prefix itself is used verbatim (not uppercased), exactly as in
the source. -/
def shouldRemoveField (line : Line) : Bool :=
  let lu := pyUpper line
  fieldsToRemove.any fun f =>
    strStartsWith lu (f ++ [':']) || strStartsWith lu (f ++ [';'])

/-! ## `_extract_contact_info` -/

/-- The projection of a record used for duplicate detection
(`info = {'name': ..., 'phones': ..., 'emails': ...}`). -/
structure ContactInfo where
  name : Line
  phones : List Line
  emails : List Line
deriving DecidableEq

/-- Character class of the regex `[\d\s\-\+\(\)]` used to capture a phone
value. -/
def telClass (c : Char) : Bool :=
  c.isDigit || c.isWhitespace || c = '-' || c = '+' || c = '(' || c = ')'

/-- `re.search(r':([\d\s\-\+\(\)]+)', line)`: find the leftmost `:` that is
followed by at least one character of the class, and return the maximal
run of class characters after it (the capture group). -/
def findTelMatch : Line → Option Line
  | [] => none
  | a :: rest =>
    if a = ':' then
      match rest with
      | [] => none
      | c :: _ => if telClass c then some (rest.takeWhile telClass)
                  else findTelMatch rest
    else findTelMatch rest

/-- `re.search(r':(.+)', line)`: find the leftmost `:` followed by at least
one non-newline character, and return the maximal run of non-newline
characters after it (the capture group; `.` does not match `\n`). -/
def findEmailMatch : Line → Option Line
  | [] => none
  | a :: rest =>
    if a = ':' then
      match rest with
      | [] => none
      | c :: _ => if c ≠ '\n' then some (rest.takeWhile (fun d => d ≠ '\n'))
                  else findEmailMatch rest
    else findEmailMatch rest

/-- One iteration of the `_extract_contact_info` loop body. -/
def extractStep (info : ContactInfo) (line : Line) : ContactInfo :=
  let lu := pyUpper line
  if strStartsWith lu (str "FN:") then
    { info with name := pyStrip (line.drop 3) }
  else if strStartsWith lu (str "TEL") then
    match findTelMatch line with
    | some g =>
      let phone := g.filter fun c =>
        !(c.isWhitespace || c = '-' || c = '(' || c = ')')
      if phone = [] then info
      else { info with phones := info.phones ++ [phone] }
    | none => info
  else if strStartsWith lu (str "EMAIL") then
    match findEmailMatch line with
    | some g => { info with emails := info.emails ++ [pyStrip g] }
    | none => info
  else info

/-- `_extract_contact_info`. -/
def extractContactInfo (contactLines : Record) : ContactInfo :=
  contactLines.foldl extractStep ⟨[], [], []⟩

/-! ## `_is_duplicate` -/

/-- `_is_duplicate`: the early-return chain of the source becomes a
disjunction — name match (both names non-empty, equal lowercased), or some
pair of phones, both of length at least 8, with equal final-8 slices. -/
def isDuplicate (c1 c2 : ContactInfo) : Bool :=
  decide (c1.name ≠ [] ∧ c2.name ≠ [] ∧ pyLower c1.name = pyLower c2.name) ||
  c1.phones.any fun p1 => c2.phones.any fun p2 =>
    decide (8 ≤ p1.length ∧ 8 ≤ p2.length ∧ lastN 8 p1 = lastN 8 p2)

/-! ## `_parse_vcf_contacts` -/

/-- The splitter's loop state: emitted records, the record being built,
and the `in_vcard` flag. -/
structure ParseState where
  contacts : List Record
  current : Record
  inVcard : Bool
deriving DecidableEq

/-- A line whose stripped content starts with `BEGIN:VCARD`. -/
def isBeginLine (l : Line) : Bool := strStartsWith (pyStrip l) (str "BEGIN:VCARD")

/-- A line whose stripped content starts with `END:VCARD`. -/
def isEndLine (l : Line) : Bool := strStartsWith (pyStrip l) (str "END:VCARD")

/-- One iteration of the `_parse_vcf_contacts` loop body. -/
def parseStep (s : ParseState) (line : Line) : ParseState :=
  if isBeginLine line then
    { s with current := [line], inVcard := true }
  else if isEndLine line then
    { contacts := if s.inVcard then s.contacts ++ [s.current ++ [line]]
                  else s.contacts,
      current := [], inVcard := false }
  else if s.inVcard then
    { s with current := s.current ++ [line] }
  else s

/-- The `_parse_vcf_contacts` loop over the input lines. -/
def parseGo (s : ParseState) : List Line → ParseState
  | [] => s
  | l :: rest => parseGo (parseStep s l) rest

/-- The splitter's initial state. -/
def pInit : ParseState := ⟨[], [], false⟩

/-- `_parse_vcf_contacts`. -/
def parseVcfContacts (lines : List Line) : List Record :=
  (parseGo pInit lines).contacts

/-! ## `_clean_contact` -/

/-- The cleaner's loop state: retained lines, the `has_phone` flag, the
`skip_until_next_field` flag, and the number of suppressed lines (the
amount added to `stats['blocks_removed']`). -/
structure CleanState where
  cleaned : List Line
  hasPhone : Bool
  skip : Bool
  blocksRemoved : Nat
deriving DecidableEq

/-- Stripped-line test for the phone property:
`line_stripped.upper().startswith('TEL')`. -/
def telLine (l : Line) : Bool := strStartsWith (pyUpper (pyStrip l)) (str "TEL")

/-- The classification part of the `_clean_contact` loop body (reached when
skip mode is off, or on the very line that ends skip mode): a removable
field starts skip mode and is suppressed; any other line sets `has_phone`
when it is a TEL line and is retained. -/
def cleanClassify (s : CleanState) (line ls : Line) : CleanState :=
  if shouldRemoveField ls then
    { s with skip := true, blocksRemoved := s.blocksRemoved + 1 }
  else
    { s with hasPhone := s.hasPhone || strStartsWith (pyUpper ls) (str "TEL"),
             cleaned := s.cleaned ++ [line] }

/-- One iteration of the `_clean_contact` loop body.  In skip mode the line
is reclassified when `':' in line_stripped and not
line_stripped.startswith(' ')`, otherwise suppressed. -/
def cleanStep (s : CleanState) (line : Line) : CleanState :=
  let ls := pyStrip line
  if s.skip then
    if ls.contains ':' && !(strStartsWith ls (str " ")) then
      cleanClassify { s with skip := false } line ls
    else
      { s with blocksRemoved := s.blocksRemoved + 1 }
  else
    cleanClassify s line ls

/-- The `_clean_contact` loop over a record's lines. -/
def cleanScanGo (s : CleanState) : List Line → CleanState
  | [] => s
  | l :: rest => cleanScanGo (cleanStep s l) rest

/-- The full scan of one record by `_clean_contact`, from the initial
state. -/
def cleanScan (contactLines : Record) : CleanState :=
  cleanScanGo ⟨[], false, false, 0⟩ contactLines

/-- `_clean_contact`: scan the record, then return the cleaned lines and
bump `contacts_with_phone` when a phone was seen, else return `none` and
bump `contacts_removed`; the suppressed-line count goes into
`blocks_removed` either way. -/
def cleanContact (stats : Stats) (contactLines : Record) :
    Option Record × Stats :=
  let st := cleanScan contactLines
  let stats1 := { stats with blocks_removed := stats.blocks_removed + st.blocksRemoved }
  if st.hasPhone then
    (some st.cleaned,
     { stats1 with contacts_with_phone := stats1.contacts_with_phone + 1 })
  else
    (none, { stats1 with contacts_removed := stats1.contacts_removed + 1 })

/-- The result component of `_clean_contact` (independent of the statistics
argument). -/
def cleanRes (contactLines : Record) : Option Record :=
  let st := cleanScan contactLines
  if st.hasPhone then some st.cleaned else none

/-! ## `_remove_duplicates` -/

/-- The `_remove_duplicates` loop: accumulated unique records, accumulated
accepted identities, threaded statistics. -/
def removeDupAux (stats : Stats) (unique : List Record)
    (infos : List ContactInfo) : List Record → List Record × Stats
  | [] => (unique, stats)
  | c :: rest =>
    let info := extractContactInfo c
    if infos.any (fun e => isDuplicate info e) then
      removeDupAux
        { stats with duplicates_removed := stats.duplicates_removed + 1 }
        unique infos rest
    else
      removeDupAux stats (unique ++ [c]) (infos ++ [info]) rest

/-- `_remove_duplicates`. -/
def removeDuplicates (stats : Stats) (contacts : List Record) :
    List Record × Stats :=
  removeDupAux stats [] [] contacts

/-- Specification-side deduplication, written after the contract's words:
keep a record exactly when its identity is not a duplicate of the identity
of any previously accepted record, testing against every previously
accepted identity; kept records stay in original relative order. -/
def dedupSpec (accepted : List ContactInfo) : List Record → List Record
  | [] => []
  | c :: rest =>
    let info := extractContactInfo c
    if accepted.any (fun e => isDuplicate info e) then dedupSpec accepted rest
    else c :: dedupSpec (accepted ++ [info]) rest

/-! ## The cleaning loop and core pipeline of `nettoyer_vcf` -/

/-- The cleaning loop of `nettoyer_vcf`: clean each parsed record, keep the
result when it is truthy (not `None` and not the empty list, as Python's
`if cleaned_contact:` tests). -/
def cleanAllGo (stats : Stats) (acc : List Record) :
    List Record → List Record × Stats
  | [] => (acc, stats)
  | r :: rest =>
    let p := cleanContact stats r
    match p.1 with
    | some c => cleanAllGo p.2 (if c.isEmpty then acc else acc ++ [c]) rest
    | none => cleanAllGo p.2 acc rest

/-- The cleaning loop of `nettoyer_vcf`, from an empty accumulator. -/
def cleanAll (stats : Stats) (contacts : List Record) :
    List Record × Stats :=
  cleanAllGo stats [] contacts

/-- The pure core of `nettoyer_vcf` (lines 216-232 of the source): parse,
record the total, fail with `none` when no contact was parsed, otherwise
clean every record and remove duplicates.  The statistics value returned is
the one the reporting step (`_print_stats`) would read. -/
def nettoyerCore (lines : List Line) : Option (List Record × Stats) :=
  let contacts := parseVcfContacts lines
  let stats0 : Stats :=
    { total_contacts := contacts.length, contacts_with_phone := 0,
      contacts_removed := 0, duplicates_removed := 0, blocks_removed := 0 }
  if contacts.isEmpty then none
  else
    let p := cleanAll stats0 contacts
    some (removeDuplicates p.2 p.1)

/-! ## Record well-formedness (the data-model invariant) -/

/-- A line that is neither a begin marker nor an end marker. -/
def noMarker (l : Line) : Prop := isBeginLine l = false ∧ isEndLine l = false

/-- The data-model invariant on records: the first line is the one begin
line, the last line is the one end line, and no interior line is a begin or
end marker. -/
def wellFormedRecord (r : Record) : Prop :=
  ∃ b mid e, r = b :: (mid ++ [e]) ∧
    isBeginLine b = true ∧ isEndLine b = false ∧
    isEndLine e = true ∧ isBeginLine e = false ∧
    ∀ l ∈ mid, noMarker l

/-! ## Helper lemmas about the string operations -/

theorem strStartsWith_iff (l p : Line) : strStartsWith l p = true ↔ p <+: l :=
  List.isPrefixOf_iff_prefix

theorem dropTrailingWs_pre (l : Line) : dropTrailingWs l <+: l := by
  have h := List.dropWhile_suffix (l := l.reverse) Char.isWhitespace
  have h2 := List.reverse_prefix.mpr h
  simpa [dropTrailingWs] using h2

theorem pyStrip_head_not_ws (l : Line) {c : Char} {t : Line}
    (h : pyStrip l = c :: t) : c.isWhitespace = false := by
  have hpre := dropTrailingWs_pre (l.dropWhile Char.isWhitespace)
  rw [pyStrip] at h
  rw [h] at hpre
  obtain ⟨r, hr⟩ := hpre
  have hne : l.dropWhile Char.isWhitespace ≠ [] := by
    rw [← hr]; simp
  have hh := List.head_dropWhile_not Char.isWhitespace l hne
  have hhead : (l.dropWhile Char.isWhitespace).head hne = c := by
    have : l.dropWhile Char.isWhitespace = c :: (t ++ r) := by
      rw [← hr]; simp
    simp [this]
  rw [hhead] at hh
  exact hh

theorem pyStrip_not_startsWith_space (l : Line) :
    strStartsWith (pyStrip l) (str " ") = false := by
  cases h : pyStrip l with
  | nil => rfl
  | cons c t =>
    have hws := pyStrip_head_not_ws l h
    have hc : c ≠ ' ' := by
      intro he; rw [he] at hws; simp [Char.isWhitespace] at hws
    simp [strStartsWith, str, List.isPrefixOf, hc]
    intro he; exact absurd he.symm hc

theorem pyUpper_pre {a l : Line} (h : a <+: l) : pyUpper a <+: pyUpper l :=
  h.map Char.toUpper

/-- Two incomparable lists cannot both be prefixes of the same list. -/
theorem prefix_incomp {a b x : Line} (h1 : a <+: x) (h2 : b <+: x)
    (hab : ¬ (a <+: b)) (hba : ¬ (b <+: a)) : False :=
  ( List.prefix_or_prefix_of_prefix h1 h2).elim hab hba

theorem begin_not_end {l : Line} (h : isBeginLine l = true) :
    isEndLine l = false := by
  cases he : isEndLine l with
  | false => rfl
  | true =>
    exfalso
    rw [isBeginLine, strStartsWith_iff] at h
    rw [isEndLine, strStartsWith_iff] at he
    exact prefix_incomp h he (by decide) (by decide)

theorem end_not_begin {l : Line} (h : isEndLine l = true) :
    isBeginLine l = false := by
  cases hb : isBeginLine l with
  | false => rfl
  | true => rw [begin_not_end hb] at h; cases h

/-- A line whose uppercased form is incomparable with every configured
prefix-plus-separator is not removable. -/
theorem shouldRemove_false_of_incomp (x a : Line) (ha : a <+: x)
    (hch : ∀ f ∈ fieldsToRemove,
      ¬((f ++ [':']) <+: pyUpper a) ∧ ¬(pyUpper a <+: (f ++ [':'])) ∧
      ¬((f ++ [';']) <+: pyUpper a) ∧ ¬(pyUpper a <+: (f ++ [';']))) :
    shouldRemoveField x = false := by
  cases hsr : shouldRemoveField x with
  | false => rfl
  | true =>
    exfalso
    simp only [shouldRemoveField, List.any_eq_true] at hsr
    obtain ⟨f, hf, hor⟩ := hsr
    have hux : pyUpper a <+: pyUpper x := pyUpper_pre ha
    rcases Bool.or_eq_true _ _ |>.mp hor with h1 | h1 <;>
      rw [strStartsWith_iff] at h1
    · exact prefix_incomp h1 hux (hch f hf).1 (hch f hf).2.1
    · exact prefix_incomp h1 hux (hch f hf).2.2.1 (hch f hf).2.2.2

theorem beginLine_not_removable {l : Line} (h : isBeginLine l = true) :
    shouldRemoveField (pyStrip l) = false := by
  rw [isBeginLine, strStartsWith_iff] at h
  exact shouldRemove_false_of_incomp _ (str "BEGIN:VCARD") h (by decide)

theorem endLine_not_removable {l : Line} (h : isEndLine l = true) :
    shouldRemoveField (pyStrip l) = false := by
  rw [isEndLine, strStartsWith_iff] at h
  exact shouldRemove_false_of_incomp _ (str "END:VCARD") h (by decide)

theorem endLine_contains_colon {l : Line} (h : isEndLine l = true) :
    (pyStrip l).contains ':' = true := by
  rw [isEndLine, strStartsWith_iff] at h
  have hm : ':' ∈ pyStrip l := h.subset (by decide)
  exact List.elem_iff.mpr hm

/-! ## Lemmas about the `_clean_contact` scan -/

theorem cleanStep_skip_colon (s : CleanState) (line : Line)
    (hs : s.skip = true) (hc : (pyStrip line).contains ':' = true) :
    cleanStep s line = cleanStep { s with skip := false } line := by
  have hc' : ':' ∈ pyStrip line := List.elem_iff.mp hc
  simp [cleanStep, hs, hc', pyStrip_not_startsWith_space]

theorem cleanStep_skip_no_colon (s : CleanState) (line : Line)
    (hs : s.skip = true) (hc : (pyStrip line).contains ':' = false) :
    cleanStep s line = { s with blocksRemoved := s.blocksRemoved + 1 } := by
  have hc' : ':' ∉ pyStrip line := by
    intro hm
    have h2 : List.contains (pyStrip line) ':' = true := List.elem_iff.mpr hm
    rw [h2] at hc; cases hc
  simp [cleanStep, hs, hc']

/-- Each step either keeps the retained lines unchanged or appends exactly
the current line, and an appended line is never a removable one. -/
theorem cleanStep_cleaned (s : CleanState) (line : Line) :
    (cleanStep s line).cleaned = s.cleaned ∨
    ((cleanStep s line).cleaned = s.cleaned ++ [line] ∧
      shouldRemoveField (pyStrip line) = false) := by
  rw [cleanStep]
  split
  · split
    · rw [cleanClassify]
      split
      · exact Or.inl rfl
      · exact Or.inr ⟨rfl, by simp_all⟩
    · exact Or.inl rfl
  · rw [cleanClassify]
    split
    · exact Or.inl rfl
    · exact Or.inr ⟨rfl, by simp_all⟩

/-- The scan only appends retained lines: the result extends the incoming
accumulator by a subsequence of the scanned lines, none of them removable. -/
theorem cleanScanGo_cleaned (lines : List Line) : ∀ s : CleanState,
    ∃ t, (cleanScanGo s lines).cleaned = s.cleaned ++ t ∧ t.Sublist lines ∧
      ∀ l ∈ t, shouldRemoveField (pyStrip l) = false := by
  induction lines with
  | nil => intro s; exact ⟨[], by simp [cleanScanGo], List.nil_sublist _, by simp⟩
  | cons l rest ih =>
    intro s
    obtain ⟨t, h1, h2, h3⟩ := ih (cleanStep s l)
    rcases cleanStep_cleaned s l with hcl | ⟨hcl, hsrf⟩
    · exact ⟨t, by rw [cleanScanGo, h1, hcl], h2.cons l, h3⟩
    · refine ⟨l :: t, ?_, h2.cons₂ l, ?_⟩
      · rw [cleanScanGo, h1, hcl]; simp
      · intro x hx
        rcases List.mem_cons.mp hx with hx | hx
        · rw [hx]; exact hsrf
        · exact h3 x hx

/-- The `has_phone` flag tracks exactly whether some retained line is a
TEL line. -/
theorem cleanStep_hasPhone (s : CleanState) (line : Line)
    (h : s.hasPhone = s.cleaned.any telLine) :
    (cleanStep s line).hasPhone = (cleanStep s line).cleaned.any telLine := by
  rw [cleanStep]
  split
  · split
    · rw [cleanClassify]
      split
      · exact h
      · simp [telLine, h, List.any_append]
    · exact h
  · rw [cleanClassify]
    split
    · exact h
    · simp [telLine, h, List.any_append]

theorem cleanScanGo_hasPhone (lines : List Line) : ∀ s : CleanState,
    s.hasPhone = s.cleaned.any telLine →
    (cleanScanGo s lines).hasPhone = (cleanScanGo s lines).cleaned.any telLine := by
  induction lines with
  | nil => intro s h; exact h
  | cons l rest ih =>
    intro s h
    rw [cleanScanGo]
    exact ih _ (cleanStep_hasPhone s l h)

theorem cleanScan_hasPhone (r : Record) :
    (cleanScan r).hasPhone = (cleanScan r).cleaned.any telLine :=
  cleanScanGo_hasPhone r _ rfl

/-- When no scanned line is removable and skip mode is off, every line is
retained in order and `has_phone` accumulates the TEL test. -/
theorem cleanScanGo_all_kept (lines : List Line) : ∀ s : CleanState,
    s.skip = false →
    (∀ l ∈ lines, shouldRemoveField (pyStrip l) = false) →
    cleanScanGo s lines =
      { s with cleaned := s.cleaned ++ lines,
               hasPhone := s.hasPhone || lines.any telLine } := by
  induction lines with
  | nil => intro s hs _; simp [cleanScanGo]
  | cons l rest ih =>
    intro s hs hall
    rw [cleanScanGo]
    have hstep : cleanStep s l =
        { s with cleaned := s.cleaned ++ [l],
                 hasPhone := s.hasPhone || telLine l } := by
      simp [cleanStep, hs, cleanClassify, hall l (by simp), telLine]
    rw [hstep, ih { s with cleaned := s.cleaned ++ [l],
                           hasPhone := s.hasPhone || telLine l }
          hs (fun x hx => hall x (by simp [hx]))]
    simp [Bool.or_assoc]

/-! ## Lemmas about the `_parse_vcf_contacts` loop -/

theorem parseGo_append (a : List Line) : ∀ (b : List Line) (s : ParseState),
    parseGo s (a ++ b) = parseGo (parseGo s a) b := by
  induction a with
  | nil => intro b s; rfl
  | cons l rest ih => intro b s; rw [List.cons_append, parseGo, parseGo, ih]

/-- Reachable states have an empty `current` whenever `in_vcard` is off. -/
theorem parseStep_current_nil (s : ParseState) (line : Line)
    (h : s.inVcard = false → s.current = []) :
    (parseStep s line).inVcard = false → (parseStep s line).current = [] := by
  rw [parseStep]
  split
  · intro hf; cases hf
  · split
    · intro _; rfl
    · split
      · intro hf; simp_all
      · exact h

theorem parseGo_current_nil (lines : List Line) : ∀ s : ParseState,
    (s.inVcard = false → s.current = []) →
    ((parseGo s lines).inVcard = false → (parseGo s lines).current = []) := by
  induction lines with
  | nil => intro s h; exact h
  | cons l rest ih =>
    intro s h
    rw [parseGo]
    exact ih _ (parseStep_current_nil s l h)

/-- A line that is not an end marker never adds a record. -/
theorem parseStep_contacts (s : ParseState) (line : Line)
    (h : isEndLine line = false) :
    (parseStep s line).contacts = s.contacts := by
  rw [parseStep]
  split
  · rfl
  · split
    · simp_all
    · split
      · rfl
      · rfl

theorem parseGo_contacts_no_end (tail : List Line) : ∀ s : ParseState,
    (∀ l ∈ tail, isEndLine l = false) →
    (parseGo s tail).contacts = s.contacts := by
  induction tail with
  | nil => intro s _; rfl
  | cons l rest ih =>
    intro s h
    rw [parseGo, ih _ (fun x hx => h x (by simp [hx])),
      parseStep_contacts s l (h l (by simp))]

/-- A stray end line (no record open, so `current` is empty) leaves the
splitter state unchanged. -/
theorem parseStep_stray_end (s : ParseState) (line : Line)
    (he : isEndLine line = true) (hv : s.inVcard = false)
    (hc : s.current = []) : parseStep s line = s := by
  cases s with
  | mk co cu iv =>
    simp only at hv hc
    subst hv hc
    simp [parseStep, he, end_not_begin he]

/-- A non-marker line seen while no record is open is ignored entirely. -/
theorem parseStep_outside (s : ParseState) (line : Line)
    (hb : isBeginLine line = false) (he : isEndLine line = false)
    (hv : s.inVcard = false) : parseStep s line = s := by
  simp [parseStep, hb, he, hv]

/-! ## The record invariant through the splitter -/

/-- Invariant of the splitter state: every emitted record is well formed,
and while a record is open its accumulated lines are a begin line followed
by non-marker lines. -/
def pInv (s : ParseState) : Prop :=
  (∀ r ∈ s.contacts, wellFormedRecord r) ∧
  (s.inVcard = true → ∃ b mid, s.current = b :: mid ∧
    isBeginLine b = true ∧ isEndLine b = false ∧ ∀ l ∈ mid, noMarker l)

theorem parseStep_pInv (s : ParseState) (line : Line) (h : pInv s) :
    pInv (parseStep s line) := by
  obtain ⟨hc, hcur⟩ := h
  rw [parseStep]
  split
  · next hb =>
    exact ⟨hc, fun _ => ⟨line, [], rfl, hb, begin_not_end hb, by simp⟩⟩
  · next hb =>
    have hb' : isBeginLine line = false := by
      cases hx : isBeginLine line with
      | false => rfl
      | true => exact absurd hx hb
    split
    · next he =>
      refine ⟨?_, fun hf => by cases hf⟩
      intro r hr
      split at hr
      · next hv =>
        rcases List.mem_append.mp hr with hr | hr
        · exact hc r hr
        · have hre : r = s.current ++ [line] := by simpa using hr
          obtain ⟨b, mid, hcur', hbb, hbe, hmid⟩ := hcur hv
          rw [hre, hcur']
          exact ⟨b, mid, line, by simp, hbb, hbe, he, hb', hmid⟩
      · exact hc r hr
    · next he =>
      have he' : isEndLine line = false := by
        cases hx : isEndLine line with
        | false => rfl
        | true => exact absurd hx he
      split
      · next hv =>
        refine ⟨hc, fun _ => ?_⟩
        obtain ⟨b, mid, hcur', hbb, hbe, hmid⟩ := hcur hv
        refine ⟨b, mid ++ [line], by simp [hcur'], hbb, hbe, ?_⟩
        intro x hx
        rcases List.mem_append.mp hx with hx | hx
        · exact hmid x hx
        · have : x = line := by simpa using hx
          rw [this]; exact ⟨hb', he'⟩
      · exact ⟨hc, hcur⟩

theorem parseGo_pInv (lines : List Line) : ∀ s : ParseState,
    pInv s → pInv (parseGo s lines) := by
  induction lines with
  | nil => intro s h; exact h
  | cons l rest ih =>
    intro s h
    rw [parseGo]
    exact ih _ (parseStep_pInv s l h)

/-! ## Lemmas about `_clean_contact`'s result and counters -/

theorem cleanContact_fst (stats : Stats) (r : Record) :
    (cleanContact stats r).1 = cleanRes r := by
  simp only [cleanContact, cleanRes]
  split <;> rfl

theorem cleanContact_cases (stats : Stats) (r : Record) :
    ((cleanScan r).hasPhone = true ∧
     (cleanContact stats r).1 = some (cleanScan r).cleaned ∧
     (cleanContact stats r).2 =
       { stats with
         blocks_removed := stats.blocks_removed + (cleanScan r).blocksRemoved,
         contacts_with_phone := stats.contacts_with_phone + 1 }) ∨
    ((cleanScan r).hasPhone = false ∧
     (cleanContact stats r).1 = none ∧
     (cleanContact stats r).2 =
       { stats with
         blocks_removed := stats.blocks_removed + (cleanScan r).blocksRemoved,
         contacts_removed := stats.contacts_removed + 1 }) := by
  cases hp : (cleanScan r).hasPhone
  · right
    exact ⟨rfl, by simp [cleanContact, hp], by simp [cleanContact, hp]⟩
  · left
    exact ⟨rfl, by simp [cleanContact, hp], by simp [cleanContact, hp]⟩

theorem cleanContact_counter (stats : Stats) (r : Record) :
    ((cleanContact stats r).2.contacts_with_phone +
       (cleanContact stats r).2.contacts_removed
     = stats.contacts_with_phone + stats.contacts_removed + 1) ∧
    (cleanContact stats r).2.total_contacts = stats.total_contacts ∧
    (cleanContact stats r).2.duplicates_removed = stats.duplicates_removed := by
  rcases cleanContact_cases stats r with ⟨_, _, h2⟩ | ⟨_, _, h2⟩ <;>
    rw [h2] <;> refine ⟨?_, rfl, rfl⟩ <;> simp <;> omega

theorem cleanRes_ne_nil {r : Record} {c : Record} (h : cleanRes r = some c) :
    c ≠ [] := by
  rw [cleanRes] at h
  split at h
  · next hp =>
    have hout : c = (cleanScan r).cleaned := by
      cases h; rfl
    have hany : (cleanScan r).cleaned.any telLine = true := by
      rw [← cleanScan_hasPhone]; exact hp
    obtain ⟨x, hx, _⟩ := List.any_eq_true.mp hany
    rw [hout]
    exact List.ne_nil_of_mem hx
  · cases h

/-! ## Lemmas about the cleaning loop of `nettoyer_vcf` -/

theorem cleanAllGo_fst (recs : List Record) : ∀ (stats : Stats) (acc : List Record),
    (cleanAllGo stats acc recs).1 = acc ++ recs.filterMap cleanRes := by
  induction recs with
  | nil => intro stats acc; simp [cleanAllGo]
  | cons r rest ih =>
    intro stats acc
    cases hres : cleanRes r with
    | none =>
      have h1 : (cleanContact stats r).1 = none := by
        rw [cleanContact_fst, hres]
      simp only [cleanAllGo, h1]
      rw [ih]
      simp [List.filterMap_cons, hres]
    | some c =>
      have h1 : (cleanContact stats r).1 = some c := by
        rw [cleanContact_fst, hres]
      have hc : ¬ c.isEmpty = true := by
        simp [List.isEmpty_iff]
        exact cleanRes_ne_nil hres
      simp only [cleanAllGo, h1, hc, if_neg]
      rw [ih]
      simp [List.filterMap_cons, hres]

theorem cleanAllGo_stats (recs : List Record) : ∀ (stats : Stats) (acc : List Record),
    ((cleanAllGo stats acc recs).2.contacts_with_phone +
       (cleanAllGo stats acc recs).2.contacts_removed
     = stats.contacts_with_phone + stats.contacts_removed + recs.length) ∧
    (cleanAllGo stats acc recs).2.total_contacts = stats.total_contacts := by
  induction recs with
  | nil => intro stats acc; simp [cleanAllGo]
  | cons r rest ih =>
    intro stats acc
    obtain ⟨hsum, htot, _⟩ := cleanContact_counter stats r
    cases h1 : (cleanContact stats r).1 with
    | none =>
      simp only [cleanAllGo, h1]
      obtain ⟨ihs, iht⟩ := ih (cleanContact stats r).2 acc
      constructor
      · rw [ihs]; simp [List.length_cons]; omega
      · rw [iht, htot]
    | some c =>
      simp only [cleanAllGo, h1]
      obtain ⟨ihs, iht⟩ := ih (cleanContact stats r).2
        (if c.isEmpty then acc else acc ++ [c])
      constructor
      · rw [ihs]; simp [List.length_cons]; omega
      · rw [iht, htot]

/-! ## Lemmas about `_remove_duplicates` -/

theorem dedupSpec_sublist (l : List Record) : ∀ i : List ContactInfo,
    (dedupSpec i l).Sublist l := by
  induction l with
  | nil => intro i; simp [dedupSpec]
  | cons c rest ih =>
    intro i
    simp only [dedupSpec]
    split
    · exact (ih i).cons c
    · exact (ih _).cons₂ c

theorem removeDupAux_spec (l : List Record) :
    ∀ (stats : Stats) (u : List Record) (i : List ContactInfo),
    (removeDupAux stats u i l).1 = u ++ dedupSpec i l ∧
    (removeDupAux stats u i l).2.duplicates_removed + (dedupSpec i l).length
       = stats.duplicates_removed + l.length ∧
    (removeDupAux stats u i l).2.total_contacts = stats.total_contacts ∧
    (removeDupAux stats u i l).2.contacts_with_phone = stats.contacts_with_phone ∧
    (removeDupAux stats u i l).2.contacts_removed = stats.contacts_removed ∧
    (removeDupAux stats u i l).2.blocks_removed = stats.blocks_removed := by
  induction l with
  | nil => intro stats u i; simp [removeDupAux, dedupSpec]
  | cons c rest ih =>
    intro stats u i
    by_cases hd : (i.any fun e => isDuplicate (extractContactInfo c) e) = true
    · simp only [removeDupAux, dedupSpec, hd, if_pos]
      obtain ⟨h1, h2, h3, h4, h5, h6⟩ :=
        ih { stats with duplicates_removed := stats.duplicates_removed + 1 } u i
      refine ⟨h1, ?_, h3, h4, h5, h6⟩
      simp only [List.length_cons]
      simp at h2
      omega
    · have hd' : (i.any fun e => isDuplicate (extractContactInfo c) e) = false :=
        Bool.not_eq_true _ |>.mp hd
      simp only [removeDupAux, dedupSpec, hd', Bool.false_eq_true, if_neg,
        not_false_eq_true]
      obtain ⟨h1, h2, h3, h4, h5, h6⟩ :=
        ih stats (u ++ [c]) (i ++ [extractContactInfo c])
      refine ⟨by rw [h1]; simp, ?_, h3, h4, h5, h6⟩
      simp only [List.length_cons]
      omega

theorem cleanScanGo_append (a b : List Line) : ∀ s : CleanState,
    cleanScanGo s (a ++ b) = cleanScanGo (cleanScanGo s a) b := by
  induction a with
  | nil => intro s; rfl
  | cons l rest ih => intro s; rw [List.cons_append, cleanScanGo, cleanScanGo, ih]

/-- The duplicate test, characterised: true exactly on a case-insensitive
match of non-empty names or an 8-character suffix match of phones. -/
theorem isDuplicate_iff (a b : ContactInfo) :
    isDuplicate a b = true ↔
      (a.name ≠ [] ∧ b.name ≠ [] ∧ pyLower a.name = pyLower b.name) ∨
      (∃ p1 ∈ a.phones, ∃ p2 ∈ b.phones,
        8 ≤ p1.length ∧ 8 ≤ p2.length ∧ lastN 8 p1 = lastN 8 p2) := by
  simp [isDuplicate, List.any_eq_true]

/-- C1: for all contact identities (in particular those produced by
`_extract_contact_info`), `_is_duplicate` returns true exactly when both
names are non-empty and equal case-insensitively, or some phone of one and
some phone of the other, both of length at least 8, share their final-8
suffix; the test is symmetric, and an identity with no name and no phone of
length at least 8 is never judged a duplicate of any identity. -/
theorem C1_isDuplicate_characterization (c1 c2 : ContactInfo) :
    (isDuplicate c1 c2 = true ↔
      (c1.name ≠ [] ∧ c2.name ≠ [] ∧ pyLower c1.name = pyLower c2.name) ∨
      (∃ p1 ∈ c1.phones, ∃ p2 ∈ c2.phones,
        8 ≤ p1.length ∧ 8 ≤ p2.length ∧ lastN 8 p1 = lastN 8 p2)) ∧
    isDuplicate c1 c2 = isDuplicate c2 c1 ∧
    (c1.name = [] ∧ (∀ p ∈ c1.phones, p.length < 8) →
      isDuplicate c1 c2 = false) := by
  have hsymm : ∀ a b : ContactInfo, isDuplicate a b = true → isDuplicate b a = true := by
    intro a b h
    rcases (isDuplicate_iff a b).mp h with ⟨h1, h2, h3⟩ | ⟨p1, hp1, p2, hp2, h8a, h8b, he⟩
    · exact (isDuplicate_iff b a).mpr (Or.inl ⟨h2, h1, h3.symm⟩)
    · exact (isDuplicate_iff b a).mpr (Or.inr ⟨p2, hp2, p1, hp1, h8b, h8a, he.symm⟩)
  refine ⟨isDuplicate_iff c1 c2, ?_, ?_⟩
  · cases h1 : isDuplicate c1 c2 with
    | true => exact (hsymm c1 c2 h1).symm
    | false =>
      cases h2 : isDuplicate c2 c1 with
      | false => rfl
      | true => rw [hsymm c2 c1 h2] at h1; cases h1
  · rintro ⟨hn, hp⟩
    cases h : isDuplicate c1 c2 with
    | false => rfl
    | true =>
      exfalso
      rcases (isDuplicate_iff c1 c2).mp h with ⟨hne, _⟩ | ⟨p1, hp1, _, _, h8, _⟩
      · exact hne hn
      · exact absurd h8 (Nat.not_le.mpr (hp p1 hp1))

/-- Identity with no name and only a short phone. -/
def infoShort : ContactInfo := ⟨[], [str "123"], []⟩

/-- Identity with a name and a full-length phone. -/
def infoNamed : ContactInfo := ⟨str "Bob", [str "12345678"], []⟩

theorem C1_witness :
    (infoShort.name = [] ∧ ∀ p ∈ infoShort.phones, p.length < 8) ∧
    isDuplicate infoShort infoNamed = false :=
  ⟨by decide,
   (C1_isDuplicate_characterization infoShort infoNamed).2.2 (by decide)⟩

/-- C2 (the code contradicts the claim for the `X-ABLabel` entry): the line
`X-ABLabel:Home` has the configured prefix `X-ABLabel` as its leading
token, followed immediately by `:`, yet `_should_remove_field` does not
classify it (nor its upper-case spelling) as removable, because the
uppercased line is compared against the mixed-case configured literal.  For
an all-uppercase configured prefix such as `PHOTO` the claimed behaviour
does hold (`photo:x` is removed, `ORGANIZATION:x` is not). -/
theorem C2_xablabel_never_removed :
    str "X-ABLabel" ∈ fieldsToRemove ∧
    str "X-ABLabel:Home" = str "X-ABLabel" ++ ':' :: str "Home" ∧
    shouldRemoveField (str "X-ABLabel:Home") = false ∧
    shouldRemoveField (str "X-ABLABEL:Home") = false ∧
    shouldRemoveField (pyStrip (str "X-ABLabel:Home")) = false ∧
    shouldRemoveField (str "photo:x") = true ∧
    shouldRemoveField (str "ORGANIZATION:x") = false := by
  decide

/-- C3 (counterexample): in skip mode, the line `" TEL:1"` begins with
leading whitespace yet ends skip mode and is retained (the claim says a
line beginning with whitespace must not end skip mode), and a blank line
does not terminate skip mode and is suppressed (the claim says a blank
line also terminates skip mode). -/
theorem C3_counterexample :
    strStartsWith (str " TEL:1") (str " ") = true ∧
    (cleanStep ⟨[], false, true, 0⟩ (str " TEL:1")).skip = false ∧
    (cleanStep ⟨[], false, true, 0⟩ (str " TEL:1")).cleaned = [str " TEL:1"] ∧
    pyStrip (str "\n") = [] ∧
    (cleanStep ⟨[], false, true, 0⟩ (str "\n")).skip = true ∧
    (cleanStep ⟨[], false, true, 0⟩ (str "\n")).cleaned = [] := by
  decide

/-- C3 (amended): while `_clean_contact` is in skipping mode, a line ends
skip mode and is reclassified normally exactly when its stripped content
contains `:` — the no-leading-whitespace test is applied to the stripped
line and is therefore always satisfied (third conjunct), so a blank line
does not terminate skip mode; every line consumed while skip mode stays
active is suppressed and counted in `blocks_removed`. -/
theorem C3_skip_termination (s : CleanState) (line : Line)
    (hs : s.skip = true) :
    ((pyStrip line).contains ':' = true →
      cleanStep s line = cleanStep { s with skip := false } line) ∧
    ((pyStrip line).contains ':' = false →
      cleanStep s line = { s with blocksRemoved := s.blocksRemoved + 1 }) ∧
    strStartsWith (pyStrip line) (str " ") = false :=
  ⟨fun hc => cleanStep_skip_colon s line hs hc,
   fun hc => cleanStep_skip_no_colon s line hs hc,
   pyStrip_not_startsWith_space line⟩

/-- A skip-mode state. -/
def skipState : CleanState := ⟨[], false, true, 0⟩

theorem C3_witness :
    skipState.skip = true ∧
    cleanStep skipState (str "PHOTODATA") =
      { skipState with blocksRemoved := skipState.blocksRemoved + 1 } :=
  ⟨rfl, (C3_skip_termination skipState (str "PHOTODATA") rfl).2.1 (by decide)⟩

/-- C4: `_clean_contact` returns `none` exactly when no retained line is a
TEL line (case-insensitive prefix of the stripped line); in that case
`contacts_removed` increments by one and the record is excluded from the
cleaning loop's output entirely; otherwise the cleaned line sequence is
returned and `contacts_with_phone` increments by one. -/
theorem C4_no_phone_rejection (stats : Stats) (r : Record) :
    ((cleanContact stats r).1 = none ↔
      ∀ l ∈ (cleanScan r).cleaned, telLine l = false) ∧
    ((cleanContact stats r).1 = none →
      (cleanContact stats r).2.contacts_removed = stats.contacts_removed + 1 ∧
      (cleanContact stats r).2.contacts_with_phone = stats.contacts_with_phone) ∧
    (∀ out, (cleanContact stats r).1 = some out →
      out = (cleanScan r).cleaned ∧
      (cleanContact stats r).2.contacts_with_phone = stats.contacts_with_phone + 1 ∧
      (cleanContact stats r).2.contacts_removed = stats.contacts_removed) ∧
    (∀ pre post : List Record, (cleanContact stats r).1 = none →
      (cleanAll stats (pre ++ r :: post)).1 = (cleanAll stats (pre ++ post)).1) := by
  have hany := cleanScan_hasPhone r
  rcases cleanContact_cases stats r with ⟨hp, h1, h2⟩ | ⟨hp, h1, h2⟩
  · refine ⟨?_, ?_, ?_, ?_⟩
    · rw [h1]
      constructor
      · intro hfalse; cases hfalse
      · intro hall
        exfalso
        rw [hp] at hany
        obtain ⟨x, hx, hpx⟩ := List.any_eq_true.mp hany.symm
        rw [hall x hx] at hpx; cases hpx
    · intro hnone; rw [h1] at hnone; cases hnone
    · intro out hout
      rw [h1] at hout
      have := Option.some.inj hout
      exact ⟨this.symm, by rw [h2], by rw [h2]⟩
    · intro pre post hnone; rw [h1] at hnone; cases hnone
  · have hres : cleanRes r = none := (cleanContact_fst stats r).symm.trans h1
    refine ⟨?_, ?_, ?_, ?_⟩
    · rw [h1]
      constructor
      · intro _
        rw [hp] at hany
        intro l hl
        simpa using List.any_eq_false.mp hany.symm l hl
      · intro _; rfl
    · intro _; rw [h2]; exact ⟨rfl, rfl⟩
    · intro out hout; rw [h1] at hout; cases hout
    · intro pre post _
      rw [cleanAll, cleanAll, cleanAllGo_fst, cleanAllGo_fst]
      simp [List.filterMap_append, List.filterMap_cons, hres]

/-- A record with no TEL line. -/
def recNoPhone : Record := [str "BEGIN:VCARD", str "FN:A", str "END:VCARD"]

/-- A record with a TEL line. -/
def recPhone : Record := [str "BEGIN:VCARD", str "TEL:12345678", str "END:VCARD"]

theorem C4_witness :
    ((cleanContact zeroStats recNoPhone).2.contacts_removed =
        zeroStats.contacts_removed + 1 ∧
     (cleanContact zeroStats recNoPhone).2.contacts_with_phone =
        zeroStats.contacts_with_phone) ∧
    (cleanAll zeroStats ([] ++ recNoPhone :: [recPhone])).1 =
      (cleanAll zeroStats ([] ++ [recPhone])).1 :=
  ⟨(C4_no_phone_rejection zeroStats recNoPhone).2.1 (by decide),
   (C4_no_phone_rejection zeroStats recNoPhone).2.2.2 [] [recPhone] (by decide)⟩

/-- C5: `_remove_duplicates` returns exactly the first-occurrence
subsequence described by the contract (each record tested against every
previously accepted identity), its output is a subsequence of the input in
original order, and the duplicate counter grows by input length minus
output length (so from zero statistics it ends at exactly that
difference). -/
theorem C5_remove_duplicates (stats : Stats) (contacts : List Record) :
    (removeDuplicates stats contacts).1 = dedupSpec [] contacts ∧
    ((removeDuplicates stats contacts).1).Sublist contacts ∧
    (removeDuplicates stats contacts).2.duplicates_removed +
        (removeDuplicates stats contacts).1.length
      = stats.duplicates_removed + contacts.length ∧
    (removeDuplicates zeroStats contacts).2.duplicates_removed
      = contacts.length - (removeDuplicates zeroStats contacts).1.length := by
  obtain ⟨h1, h2, _, _, _, _⟩ := removeDupAux_spec contacts stats [] []
  obtain ⟨g1, g2, _, _, _, _⟩ := removeDupAux_spec contacts zeroStats [] []
  rw [List.nil_append] at h1 g1
  simp only [removeDuplicates]
  have hz : zeroStats.duplicates_removed = 0 := rfl
  refine ⟨h1, ?_, ?_, ?_⟩
  · rw [h1]; exact dedupSpec_sublist contacts []
  · rw [h1]; omega
  · rw [g1]; omega

/-- C6: the splitter emits no record for a stray end line seen while no
record is open (first conjunct: such a line is a complete no-op); any
trailing segment containing no end line — in particular an unterminated
trailing record — contributes nothing to the output (second conjunct); and
a non-marker line seen while no record is open is included in no emitted
record (third conjunct: also a complete no-op). -/
theorem C6_splitter_recovery (pre post : List Line) (line : Line) :
    (isEndLine line = true → (parseGo pInit pre).inVcard = false →
      parseVcfContacts (pre ++ line :: post) = parseVcfContacts (pre ++ post)) ∧
    (∀ lines tail : List Line, (∀ l ∈ tail, isEndLine l = false) →
      parseVcfContacts (lines ++ tail) = parseVcfContacts lines) ∧
    (isBeginLine line = false → isEndLine line = false →
      (parseGo pInit pre).inVcard = false →
      parseVcfContacts (pre ++ line :: post) = parseVcfContacts (pre ++ post)) := by
  refine ⟨?_, ?_, ?_⟩
  · intro he hv
    have hc : (parseGo pInit pre).current = [] :=
      parseGo_current_nil pre pInit (fun _ => rfl) hv
    rw [parseVcfContacts, parseVcfContacts, parseGo_append, parseGo_append,
      parseGo, parseStep_stray_end _ _ he hv hc]
  · intro lines tail h
    rw [parseVcfContacts, parseVcfContacts, parseGo_append,
      parseGo_contacts_no_end tail _ h]
  · intro hb he hv
    rw [parseVcfContacts, parseVcfContacts, parseGo_append, parseGo_append,
      parseGo, parseStep_outside _ _ hb he hv]

/-- A complete one-record input. -/
def demoLines : List Line :=
  [str "BEGIN:VCARD", str "TEL:12345678", str "END:VCARD"]

/-- An unterminated trailing record. -/
def demoTail : List Line := [str "BEGIN:VCARD", str "FN:Partial"]

theorem C6_witness :
    ((parseGo pInit []).inVcard = false ∧
     parseVcfContacts ([] ++ str "END:VCARD" :: demoLines) =
       parseVcfContacts ([] ++ demoLines)) ∧
    ((∀ l ∈ demoTail, isEndLine l = false) ∧
     parseVcfContacts (demoLines ++ demoTail) = parseVcfContacts demoLines) :=
  ⟨⟨rfl, (C6_splitter_recovery [] demoLines (str "END:VCARD")).1 (by decide) rfl⟩,
   ⟨by decide, (C6_splitter_recovery [] [] (str "x")).2.1 demoLines demoTail (by decide)⟩⟩

/-- C7: every record emitted by the splitter is well formed — it starts
with exactly one begin line and ends with exactly one end line, with no
marker among the interior lines, even when the input repeats `BEGIN:VCARD`
before a closing `END:VCARD` — and cleaning a well-formed record preserves
this shape whenever a cleaned record is returned. -/
theorem C7_record_well_formed (lines : List Line) (r : Record)
    (hr : r ∈ parseVcfContacts lines) :
    wellFormedRecord r ∧
    ∀ (stats : Stats) (out : Record), (cleanContact stats r).1 = some out →
      wellFormedRecord out := by
  have hinv0 : pInv pInit := by
    constructor
    · intro x hx
      cases hx
    · intro hx
      cases hx
  have hinv : pInv (parseGo pInit lines) := parseGo_pInv lines pInit hinv0
  have hwf : wellFormedRecord r := hinv.1 r hr
  refine ⟨hwf, ?_⟩
  intro stats out hout
  obtain ⟨b, mid, e, hre, hbb, hbe, hee, heb, hmid⟩ := hwf
  -- the scan of `r` keeps the begin line, a subsequence of the interior,
  -- and the end line
  have hb_nr : shouldRemoveField (pyStrip b) = false := beginLine_not_removable hbb
  have he_nr : shouldRemoveField (pyStrip e) = false := endLine_not_removable hee
  have hstep1 : cleanStep ⟨[], false, false, 0⟩ b =
      ⟨[b], telLine b, false, 0⟩ := by
    simp [cleanStep, cleanClassify, hb_nr, telLine]
  obtain ⟨t, ht1, ht2, ht3⟩ := cleanScanGo_cleaned mid (⟨[b], telLine b, false, 0⟩ : CleanState)
  have hlast : (cleanStep (cleanScanGo ⟨[b], telLine b, false, 0⟩ mid) e).cleaned =
      (cleanScanGo ⟨[b], telLine b, false, 0⟩ mid).cleaned ++ [e] := by
    set s2 := cleanScanGo (⟨[b], telLine b, false, 0⟩ : CleanState) mid with hs2
    cases hsk : s2.skip with
    | false => simp [cleanStep, hsk, cleanClassify, he_nr]
    | true =>
      rw [cleanStep_skip_colon s2 e hsk (endLine_contains_colon hee)]
      simp [cleanStep, cleanClassify, he_nr]
  have hscan : (cleanScan r).cleaned = b :: (t ++ [e]) := by
    rw [cleanScan, hre]
    show (cleanScanGo ⟨[], false, false, 0⟩ (b :: (mid ++ [e]))).cleaned = _
    rw [cleanScanGo, hstep1]
    rw [cleanScanGo_append mid [e]]
    rw [cleanScanGo, cleanScanGo, hlast, ht1]
    simp
  have hout_eq : out = (cleanScan r).cleaned := by
    rcases cleanContact_cases stats r with ⟨_, h1, _⟩ | ⟨_, h1, _⟩
    · rw [h1] at hout; exact (Option.some.inj hout).symm
    · rw [h1] at hout; cases hout
  refine ⟨b, t, e, by rw [hout_eq, hscan], hbb, hbe, hee, heb, ?_⟩
  intro l hl
  exact hmid l (ht2.subset hl)

/-- Input whose second record opens twice before closing. -/
def dblLines : List Line :=
  [str "BEGIN:VCARD", str "FN:A", str "BEGIN:VCARD", str "NOTE:junk",
   str "TEL:12345678", str "END:VCARD"]

/-- The record the splitter emits from `dblLines`. -/
def dblRec : Record :=
  [str "BEGIN:VCARD", str "NOTE:junk", str "TEL:12345678", str "END:VCARD"]

/-- The cleaned form of `dblRec`. -/
def dblOut : Record :=
  [str "BEGIN:VCARD", str "TEL:12345678", str "END:VCARD"]

theorem C7_witness :
    wellFormedRecord dblRec ∧ wellFormedRecord dblOut :=
  ⟨(C7_record_well_formed dblLines dblRec (by decide)).1,
   (C7_record_well_formed dblLines dblRec (by decide)).2 zeroStats dblOut (by decide)⟩

/-- C8: cleaning is idempotent — when `_clean_contact` returns a cleaned
line sequence, cleaning that sequence again (under any statistics value)
returns the same sequence. -/
theorem C8_clean_idempotent (stats stats2 : Stats) (r out : Record)
    (h : (cleanContact stats r).1 = some out) :
    (cleanContact stats2 out).1 = some out := by
  rcases cleanContact_cases stats r with ⟨hp, h1, _⟩ | ⟨hp, h1, _⟩
  · rw [h1] at h
    have hout : out = (cleanScan r).cleaned := (Option.some.inj h).symm
    obtain ⟨t, ht1, ht2, ht3⟩ :=
      cleanScanGo_cleaned r (⟨[], false, false, 0⟩ : CleanState)
    have hout_t : out = t := by
      rw [hout, cleanScan]
      rw [ht1]
      simp
    have hall : ∀ l ∈ out, shouldRemoveField (pyStrip l) = false := by
      rw [hout_t]; exact ht3
    have hany : out.any telLine = true := by
      rw [hout, ← cleanScan_hasPhone r]
      exact hp
    have hscan : cleanScan out =
        { cleaned := [] ++ out, hasPhone := false || out.any telLine,
          skip := false, blocksRemoved := 0 } := by
      rw [cleanScan]
      exact cleanScanGo_all_kept out ⟨[], false, false, 0⟩ rfl hall
    rcases cleanContact_cases stats2 out with ⟨hp2, h2, _⟩ | ⟨hp2, h2, _⟩
    · rw [h2, hscan]
      simp
    · exfalso
      rw [hscan] at hp2
      simp [hany] at hp2
  · rw [h1] at h; cases h

theorem C8_witness :
    (cleanContact zeroStats dblRec).1 = some dblOut ∧
    (cleanContact zeroStats dblOut).1 = some dblOut :=
  ⟨by decide, C8_clean_idempotent zeroStats zeroStats dblRec dblOut (by decide)⟩

/-- Statistics facts tied off when the core pipeline succeeds: the total
equals the parsed-record count, the with-phone and removed counters sum to
it, and the parsed list was non-empty. -/
theorem nettoyerCore_stats (lines : List Line) (out : List Record) (s : Stats)
    (h : nettoyerCore lines = some (out, s)) :
    s.total_contacts = (parseVcfContacts lines).length ∧
    s.contacts_with_phone + s.contacts_removed = (parseVcfContacts lines).length ∧
    (parseVcfContacts lines).isEmpty = false := by
  simp only [nettoyerCore] at h
  split at h
  · cases h
  · next hne =>
    have hemp : (parseVcfContacts lines).isEmpty = false := by
      cases hx : (parseVcfContacts lines).isEmpty with
      | false => rfl
      | true => exact absurd hx hne
    set st0 : Stats :=
      { total_contacts := (parseVcfContacts lines).length,
        contacts_with_phone := 0, contacts_removed := 0,
        duplicates_removed := 0, blocks_removed := 0 } with hst0
    have h2 := Option.some.inj h
    have hs : s = (removeDuplicates (cleanAll st0 (parseVcfContacts lines)).2
        (cleanAll st0 (parseVcfContacts lines)).1).2 :=
      (congrArg Prod.snd h2).symm
    obtain ⟨hsum, htot⟩ := cleanAllGo_stats (parseVcfContacts lines) st0 []
    obtain ⟨_, _, ht, hw, hrm, _⟩ :=
      removeDupAux_spec (cleanAll st0 (parseVcfContacts lines)).1
        (cleanAll st0 (parseVcfContacts lines)).2 [] []
    rw [cleanAll] at ht hw hrm
    have hz : st0.contacts_with_phone = 0 ∧ st0.contacts_removed = 0 ∧
        st0.total_contacts = (parseVcfContacts lines).length := ⟨rfl, rfl, rfl⟩
    refine ⟨?_, ?_, hemp⟩
    · rw [hs, removeDuplicates, cleanAll, ht, htot, hz.2.2]
    · rw [hs, removeDuplicates, cleanAll, hw, hrm]
      omega

/-- C9: every record passed to `_clean_contact` increments exactly one of
`contacts_with_phone` and `contacts_removed`, so after the cleaning loop
from fresh zero statistics the total equals their sum. -/
theorem C9_counters_invariant :
    (∀ (stats : Stats) (r : Record),
      ((cleanContact stats r).2.contacts_with_phone = stats.contacts_with_phone + 1 ∧
       (cleanContact stats r).2.contacts_removed = stats.contacts_removed) ∨
      ((cleanContact stats r).2.contacts_with_phone = stats.contacts_with_phone ∧
       (cleanContact stats r).2.contacts_removed = stats.contacts_removed + 1)) ∧
    (∀ (lines : List Line) (out : List Record) (s : Stats),
      nettoyerCore lines = some (out, s) →
      s.total_contacts = s.contacts_with_phone + s.contacts_removed) := by
  constructor
  · intro stats r
    rcases cleanContact_cases stats r with ⟨_, _, h2⟩ | ⟨_, _, h2⟩
    · left; rw [h2]; exact ⟨rfl, rfl⟩
    · right; rw [h2]; exact ⟨rfl, rfl⟩
  · intro lines out s h
    obtain ⟨h1, h2, _⟩ := nettoyerCore_stats lines out s h
    omega

/-- Two records, one with a phone and one without. -/
def demoLines9 : List Line :=
  [str "BEGIN:VCARD", str "TEL:12345678", str "END:VCARD",
   str "BEGIN:VCARD", str "FN:B", str "END:VCARD"]

/-- The output records of the pipeline on `demoLines9`. -/
def demoOut9 : List Record :=
  [[str "BEGIN:VCARD", str "TEL:12345678", str "END:VCARD"]]

/-- The final statistics of the pipeline on `demoLines9`. -/
def demoStats9 : Stats := ⟨2, 1, 1, 0, 0⟩

theorem C9_witness :
    nettoyerCore demoLines9 = some (demoOut9, demoStats9) ∧
    demoStats9.total_contacts =
      demoStats9.contacts_with_phone + demoStats9.contacts_removed :=
  ⟨by decide, C9_counters_invariant.2 demoLines9 demoOut9 demoStats9 (by decide)⟩

/-- C10: whenever the core pipeline reaches the statistics-reporting step
(returns a result), the total-contacts counter is at least 1, so the
percentage-reduction division in `_print_stats` never divides by zero. -/
theorem C10_total_positive (lines : List Line) (out : List Record) (s : Stats)
    (h : nettoyerCore lines = some (out, s)) : 1 ≤ s.total_contacts := by
  obtain ⟨h1, _, h3⟩ := nettoyerCore_stats lines out s h
  rw [h1]
  cases hp : parseVcfContacts lines with
  | nil => rw [hp] at h3; cases h3
  | cons a l => simp

theorem C10_witness :
    nettoyerCore demoLines = some ([demoLines], ⟨1, 1, 0, 0, 0⟩) ∧
    1 ≤ (⟨1, 1, 0, 0, 0⟩ : Stats).total_contacts :=
  ⟨by decide,
   C10_total_positive demoLines [demoLines] ⟨1, 1, 0, 0, 0⟩ (by decide)⟩
